import Mathlib

attribute [local semireducible] Rat.mul Rat.inv Rat.add Rat.sub

/-!
Shallow embedding of `table_bert/input_formatter.py`
(class `VanillaTableBertInputFormatter`).

Conventions of the embedding:
* Python lists become Lean `List`s; in-place mutation becomes explicit
  state passing.
* Python exceptions (`IndexError` from `row_input_tokens[-1]` on an empty
  list, `KeyError` from `span['column_name']`, `ValueError` from
  `random.sample`, the explicit `RuntimeError`) become `Except String`.
* The ambient randomness (`random.shuffle`, `random.sample`,
  `random.random`, `random.choice`) is modelled by an explicit oracle
  `Rng`; each call site of `shuffle`/`sample` carries a distinct site
  index, and per-iteration draws are indexed by the iteration counter.
  The predicates `SampleSpec` / `ShuffleSpec` say that the oracle
  behaves like Python's `random.sample` (a without-replacement draw,
  i.e. a sub-permutation of the population, of the requested length)
  and `random.shuffle` (a permutation).
* Python floats (`masked_column_prob`, `masked_context_prob`) are
  modelled as rationals; `int(...)` on a non-negative value is `floor`
  and `math.ceil` is `ceil` (`pyInt` is truncation towards zero, the
  semantics of Python's `int(...)`).
* `MAX_BERT_INPUT_LENGTH` is imported by the source from
  `table_bert.table_bert`, which is not part of this repository slice;
  modelled from the spec: "a total sequence-length budget constant",
  carried here as the configuration field `max_bert_input_length`.
-/

namespace TableBert

/-- Configuration surface of `TableBertConfig` used by the formatter. -/
structure TableBertConfig where
  cell_input_template : List String
  context_first : Bool
  max_cell_len : Nat
  column_delimiter : String
  table_mask_strategy : String
  masked_column_prob : ℚ
  masked_context_prob : ℚ
  max_predictions_per_seq : Nat
  max_bert_input_length : Nat
deriving DecidableEq

/-- A table column: `table_bert.table.Column` as used by the formatter. -/
structure Column where
  name : String
  name_tokens : List String
  type : String
  sample_value_tokens : List String
deriving DecidableEq

/-- A table: an identifier plus an ordered header of columns. -/
structure Table where
  id : String
  header : List Column
deriving DecidableEq

/-- The per-column span map built by `get_cell_input`.  `Option` fields
model Python dict keys that are only present when the corresponding
template marker occurred. -/
structure SpanMap where
  first_token : Nat × Nat
  column_name : Option (Nat × Nat) := none
  value : Option (Nat × Nat) := none
  type : Option (Nat × Nat) := none
  other_tokens : List Nat := []
  whole_span : Nat × Nat := (0, 0)
deriving DecidableEq

/-- One step of the template loop of `get_cell_input`: processes the
remaining template markers, carrying the tokens emitted so far and the
span map. -/
def cellStep (column : Column) (cell_value : List String) (token_offset : Nat) :
    List String → List String → SpanMap → List String × SpanMap
  | [], input, sm => (input, sm)
  | token :: rest, input, sm =>
    let start := input.length + token_offset
    if token = "column" then
      cellStep column cell_value token_offset rest (input ++ column.name_tokens)
        { sm with column_name := some (start, start + column.name_tokens.length) }
    else if token = "value" then
      cellStep column cell_value token_offset rest (input ++ cell_value)
        { sm with value := some (start, start + cell_value.length) }
    else if token = "type" then
      cellStep column cell_value token_offset rest (input ++ [column.type])
        { sm with type := some (start, start + 1) }
    else
      cellStep column cell_value token_offset rest (input ++ [token])
        { sm with other_tokens := sm.other_tokens ++ [start] }

/-- `get_cell_input`: linearize one cell according to the configured
template, recording the spans of each subfield at absolute offsets. -/
def get_cell_input (config : TableBertConfig) (column : Column) (cell_value : List String)
    (token_offset : Nat) : List String × SpanMap :=
  let res := cellStep column cell_value token_offset config.cell_input_template []
    { first_token := (token_offset, token_offset + 1) }
  (res.1, { res.2 with whole_span := (token_offset, token_offset + res.1.length) })

/-- The pre-mask instance returned by `get_input`. -/
structure PreInstance where
  tokens : List String
  segment_ids : List Nat
  column_spans : List (String × SpanMap)
  context_length : Nat
  context_token_indices : List Nat
deriving DecidableEq

/-- Python-dict insertion into the `column_token_span_maps` association
list: an existing key keeps its position but gets the new value, a new
key is appended. -/
def dictInsert (m : List (String × SpanMap)) (k : String) (v : SpanMap) :
    List (String × SpanMap) :=
  if m.any (fun p => p.1 == k) then m.map (fun p => if p.1 == k then (k, v) else p)
  else m ++ [(k, v)]

/-- The column loop of `get_input`: builds each column's cell tokens at
the running offset, appends the column delimiter, and stops (discarding
the current column) as soon as adding the column would exceed the table
token budget. -/
def buildRow (config : TableBertConfig) (max_table_token_length : ℤ) :
    List Column → List String → Nat → List (String × SpanMap) →
    List String × List (String × SpanMap)
  | [], row, _, maps => (row, maps)
  | column :: rest, row, column_start_idx, maps =>
    let truncated_value_tokens := column.sample_value_tokens.take config.max_cell_len
    let cell := get_cell_input config column truncated_value_tokens column_start_idx
    let column_input_tokens := cell.1 ++ [config.column_delimiter]
    if ((row.length + column_input_tokens.length : ℕ) : ℤ) > max_table_token_length then
      (row, maps)
    else
      buildRow config max_table_token_length rest (row ++ column_input_tokens)
        (column_start_idx + column_input_tokens.length) (dictInsert maps column.name cell.2)

/-- The table-token start offset of `get_input`: past `[CLS]`, the
context and the first `[SEP]` in context-first mode, past `[CLS]`
alone in table-first mode. -/
def tableTokensStartIdx (config : TableBertConfig) (context : List String) : Nat :=
  if config.context_first then context.length + 2 else 1

/-- The table token budget of `get_input`:
`MAX_BERT_INPUT_LENGTH - len(context) - 2 - 1` (an `int` that can go
negative for long contexts, hence `ℤ`). -/
def maxTableTokenLength (config : TableBertConfig) (context : List String) : ℤ :=
  (config.max_bert_input_length : ℤ) - context.length - 2 - 1

/-- The row buffer and span maps accumulated by the column loop of
`get_input`. -/
def rowOf (config : TableBertConfig) (context : List String) (table : Table) :
    List String × List (String × SpanMap) :=
  buildRow config (maxTableTokenLength config context) table.header []
    (tableTokensStartIdx config context) []

/-- The dangling-delimiter drop of `get_input`: remove the last token
of the row buffer when it is the column delimiter. -/
def dropDelim (config : TableBertConfig) (row0 : List String) : List String :=
  if row0.getLastD "" = config.column_delimiter then row0.dropLast else row0

/-- `get_input`: assemble the full token sequence, segment ids, span
maps and context index range.  The access `row_input_tokens[-1]` of the
source raises `IndexError` when no column fits (the row buffer is
empty); this is the `.error` case. -/
def get_input (config : TableBertConfig) (context : List String) (table : Table) :
    Except String PreInstance :=
  if (rowOf config context table).1 = [] then
    .error "IndexError: list index out of range"
  else if config.context_first then
    .ok {
      tokens := ["[CLS]"] ++ context ++ ["[SEP]"] ++
        dropDelim config (rowOf config context table).1 ++ ["[SEP]"],
      segment_ids := List.replicate (context.length + 2) 0 ++
        List.replicate ((dropDelim config (rowOf config context table).1).length + 1) 1,
      column_spans := (rowOf config context table).2,
      context_length := 1 + context.length,
      context_token_indices := List.range (1 + context.length) }
  else
    .ok {
      tokens := ["[CLS]"] ++ dropDelim config (rowOf config context table).1 ++ ["[SEP]"] ++
        context ++ ["[SEP]"],
      segment_ids :=
        List.replicate ((dropDelim config (rowOf config context table).1).length + 2) 0 ++
        List.replicate (context.length + 1) 1,
      column_spans := (rowOf config context table).2,
      context_length := 1 + context.length,
      context_token_indices :=
        List.range' ((dropDelim config (rowOf config context table).1).length + 1)
          (context.length + 2) }

/-- Explicit randomness oracle replacing Python's global `random`
module.  `shuffleFn`/`sampleFn` take a call-site index (each syntactic
call site of `shuffle`/`sample` in one invocation uses a distinct
index), `maskFlip i`/`keepFlip i` are the `random() < 0.8` and
`random() < 0.5` draws at the `i`-th masked position, `vocabPick i` is
the `choice(self.vocab_list)` draw there, and `rareFlip c` is the
`random() < 0.01` draw for the `c`-th column of the span map. -/
structure Rng where
  shuffleFn : Nat → List Nat → List Nat
  sampleFn : Nat → List Nat → Nat → List Nat
  maskFlip : Nat → Bool
  keepFlip : Nat → Bool
  vocabPick : Nat → String
  rareFlip : Nat → Bool

/-- `random.sample(population, k)`: raises `ValueError` when `k`
exceeds the population size, otherwise defers to the oracle. -/
def pySample (rng : Rng) (site : Nat) (population : List Nat) (k : Nat) :
    Except String (List Nat) :=
  if k ≤ population.length then .ok (rng.sampleFn site population k)
  else .error "ValueError: Sample larger than population or is negative"

/-- The oracle's `sampleFn` behaves like `random.sample`: on a legal
request it returns a sub-permutation of the population of the requested
length. -/
def SampleSpec (rng : Rng) : Prop :=
  ∀ site population k, k ≤ population.length →
    (rng.sampleFn site population k).length = k ∧
      (rng.sampleFn site population k).Subperm population

/-- The oracle's `shuffleFn` behaves like `random.shuffle`: it returns
a permutation of its input. -/
def ShuffleSpec (rng : Rng) : Prop :=
  ∀ site l, (rng.shuffleFn site l).Perm l

/-- Python's `int(...)` applied to a rational: truncation towards
zero. -/
def pyInt (q : ℚ) : ℤ := if q < 0 then q.ceil else q.floor

/-- Python's `sorted` on a list of naturals. -/
def pySorted (l : List Nat) : List Nat := List.insertionSort (· ≤ ·) l

/-- The diagnostics dictionary `info` of the mask generator. -/
structure MaskInfo where
  num_maskable_column_tokens : Nat
  num_masked_columns : Option Nat := none
  num_column_tokens_to_mask : Nat := 0
  num_context_tokens_to_mask : ℤ := 0
  num_columns : Option Nat := none
deriving DecidableEq

/-- The number of column tokens the `column_token` strategy decides to
mask: `min(max_predictions_per_seq, max(2, int(pool * prob)))` over the
flattened pool. -/
def numColumnTokensCT (config : TableBertConfig) (column_indices : List (List Nat)) : Nat :=
  min config.max_predictions_per_seq
    (max 2 (pyInt ((column_indices.flatten.length : ℚ) * config.masked_column_prob)).toNat)

/-- The number of whole columns the `column` strategy decides to mask:
`max(1, ceil(num_maskable_columns * masked_column_prob))`. -/
def numColumnsToMask (config : TableBertConfig) (column_indices : List (List Nat)) : Nat :=
  max 1 (((column_indices.length : ℚ) * config.masked_column_prob).ceil.toNat)

def chooseColumnMasks (config : TableBertConfig) (rng : Rng)
    (column_indices : List (List Nat)) :
    Except String (List Nat × Nat × Option Nat) :=
  if config.table_mask_strategy = "column_token" then
    (pySample rng 0 (rng.shuffleFn 0 column_indices.flatten)
        (numColumnTokensCT config column_indices)).map
      (fun s => (pySorted s, numColumnTokensCT config column_indices, none))
  else if config.table_mask_strategy = "column" then
    (pySample rng 0 (List.range column_indices.length)
        (numColumnsToMask config column_indices)).map
      (fun s =>
        ((rng.shuffleFn 1 (pySorted s)).map (fun i => column_indices.getD i []) |>.flatten,
         ((rng.shuffleFn 1 (pySorted s)).map (fun i => (column_indices.getD i []).length)).sum,
         some (numColumnsToMask config column_indices)))
  else
    .error "RuntimeError: unknown mode!"

/-- The 80/10/10 substitution loop: walks the masked indices in order,
records the original token as the label, and overwrites the position.
An out-of-range index is Python's `IndexError`. -/
def applyMask (rng : Rng) :
    List String → List Nat → Nat → Except String (List String × List String)
  | tokens, [], _ => .ok (tokens, [])
  | tokens, index :: rest, i =>
    if h : index < tokens.length then
      let original := tokens.get ⟨index, h⟩
      let masked_token :=
        if rng.maskFlip i then "[MASK]"
        else if rng.keepFlip i then original
        else rng.vocabPick i
      (applyMask rng (tokens.set index masked_token) rest (i + 1)).map
        (fun r => (r.1, original :: r.2))
    else .error "IndexError: list index out of range"

/-- Result record of `create_masked_lm_predictions`. -/
structure MaskResult where
  tokens : List String
  masked_lm_positions : List Nat
  masked_lm_labels : List String
  info : MaskInfo
deriving DecidableEq

/-- `create_masked_lm_predictions`: choose the column tokens to mask
according to the strategy, then the context tokens (skipped when the
computed count is not positive), sort when the context branch runs,
and apply the substitution rule. -/
def numContextTokensToMask (config : TableBertConfig) (num_column_tokens_to_mask : Nat)
    (context_indices : List Nat) : ℤ :=
  min ((config.max_predictions_per_seq : ℤ) - num_column_tokens_to_mask)
    (max 1 (pyInt ((context_indices.length : ℚ) * config.masked_context_prob)))

def create_masked_lm_predictions (config : TableBertConfig) (rng : Rng)
    (tokens : List String) (context_indices : List Nat)
    (column_indices : List (List Nat)) : Except String MaskResult :=
  match chooseColumnMasks config rng column_indices with
  | .error e => .error e
  | .ok (masked_column_token_indices, num_column_tokens_to_mask, num_masked_columns) =>
    let num_context_tokens_to_mask : ℤ :=
      numContextTokensToMask config num_column_tokens_to_mask context_indices
    let maskedIndicesRes : Except String (List Nat) :=
      if 0 < num_context_tokens_to_mask then
        (pySample rng 1 (rng.shuffleFn 2 context_indices)
            num_context_tokens_to_mask.toNat).map
          (fun ctxSample => pySorted (pySorted ctxSample ++ masked_column_token_indices))
      else
        .ok masked_column_token_indices
    match maskedIndicesRes with
    | .error e => .error e
    | .ok masked_indices =>
      match applyMask rng tokens masked_indices 0 with
      | .error e => .error e
      | .ok masked =>
        .ok {
          tokens := masked.1,
          masked_lm_positions := masked_indices,
          masked_lm_labels := masked.2,
          info := {
            num_maskable_column_tokens := (column_indices.map List.length).sum,
            num_masked_columns := num_masked_columns,
            num_column_tokens_to_mask := num_column_tokens_to_mask,
            num_context_tokens_to_mask := num_context_tokens_to_mask } }

/-- The candidate-pool comprehension of `create_pretraining_instance`:
for the `c`-th column, the indices spanned by `column_name`, then those
spanned by `type`, then (under the rare 1% draw) `other_tokens`.  A
missing `column_name` or `type` key is Python's `KeyError`. -/
def columnCandidates (rng : Rng) :
    List (String × SpanMap) → Nat → Except String (List (List Nat))
  | [], _ => .ok []
  | (_, sm) :: rest, c =>
    match sm.column_name, sm.type with
    | none, _ => .error "KeyError: column_name"
    | some _, none => .error "KeyError: type"
    | some cn, some ty =>
      let pool :=
        List.range' cn.1 (cn.2 - cn.1) ++ List.range' ty.1 (ty.2 - ty.1) ++
          (if rng.rareFlip c then sm.other_tokens else [])
      match columnCandidates rng rest (c + 1) with
      | .error e => .error e
      | .ok others => .ok (pool :: others)

/-- The context candidate slice of `create_pretraining_instance`:
`[1:]` of the context index range when the context comes first, `[:-1]`
when the table comes first. -/
def context_candidates (config : TableBertConfig) (input_instance : PreInstance) :
    List Nat :=
  if config.context_first then input_instance.context_token_indices.drop 1
  else input_instance.context_token_indices.dropLast

/-- The training instance assembled by `create_pretraining_instance`
(the token-id projections through the external tokenizer are omitted:
they are images of `tokens` and `masked_lm_labels`). -/
structure PretrainInstance where
  tokens : List String
  segment_a_length : Nat
  masked_lm_positions : List Nat
  masked_lm_labels : List String
  info : MaskInfo
deriving DecidableEq

/-- `create_pretraining_instance`: build the sequence, derive both
candidate pools, run the mask generator, and package the result. -/
def create_pretraining_instance (config : TableBertConfig) (rng : Rng)
    (context : List String) (header : List Column) :
    Except String PretrainInstance :=
  match get_input config context ⟨"fake_table", header⟩ with
  | .error e => .error e
  | .ok input_instance =>
    match columnCandidates rng input_instance.column_spans 0 with
    | .error e => .error e
    | .ok column_candidate_indices =>
      match create_masked_lm_predictions config rng input_instance.tokens
          (context_candidates config input_instance) column_candidate_indices with
      | .error e => .error e
      | .ok r =>
        .ok {
          tokens := r.tokens,
          segment_a_length := input_instance.segment_ids.countP (· == 0),
          masked_lm_positions := r.masked_lm_positions,
          masked_lm_labels := r.masked_lm_labels,
          info := { r.info with num_columns := some header.length } }

instance {ε α : Type} [DecidableEq ε] [DecidableEq α] : DecidableEq (Except ε α) := fun a b =>
  match a, b with
  | .error e, .error e' => decidable_of_iff (e = e') (by simp)
  | .error _, .ok _ => isFalse (by simp)
  | .ok _, .error _ => isFalse (by simp)
  | .ok v, .ok v' => decidable_of_iff (v = v') (by simp)

/-- A concrete, fully deterministic randomness oracle used for concrete
runs: `sample` takes the first `k` elements, `shuffle` reverses at call
site `1` (the shuffle of `columns_to_mask`) and is the identity
elsewhere, the `random() < 0.8` draw always fires (every masked
position becomes `[MASK]`), and the rare 1% draw never fires. -/
def oracle : Rng := {
  shuffleFn := fun site l => if site = 1 then l.reverse else l,
  sampleFn := fun _ population k => population.take k,
  maskFlip := fun _ => true,
  keepFlip := fun _ => true,
  vocabPick := fun _ => "the",
  rareFlip := fun _ => false }

theorem oracle_sample_spec : SampleSpec oracle := by
  intro site population k h
  exact ⟨by simp [oracle, List.length_take, Nat.min_eq_left h],
    (List.take_sublist _ _).subperm⟩

theorem oracle_shuffle_spec : ShuffleSpec oracle := by
  intro site l
  by_cases h : site = 1 <;> simp [oracle, h]

/-- Concrete configuration with the `column` masking strategy. -/
def cfgColumn : TableBertConfig := {
  cell_input_template := ["column", "type", "value"],
  context_first := true,
  max_cell_len := 5,
  column_delimiter := "|",
  table_mask_strategy := "column",
  masked_column_prob := 1,
  masked_context_prob := 0,
  max_predictions_per_seq := 4,
  max_bert_input_length := 512 }

/-- Concrete configuration with the `column_token` masking strategy. -/
def cfgCT : TableBertConfig := {
  cfgColumn with
  table_mask_strategy := "column_token",
  masked_column_prob := 1/10,
  max_predictions_per_seq := 20 }

/-- `cfgCT` with the table placed before the context. -/
def cfgTF : TableBertConfig := { cfgCT with context_first := false }

/-- `cfgColumn` with a sequence budget too small for any column. -/
def cfgSmall : TableBertConfig := { cfgColumn with max_bert_input_length := 7 }

/-- A one-token column named `country` of type `text` whose sampled
value tokenizes to `brazil`. -/
def colCountry : Column := {
  name := "country",
  name_tokens := ["country"],
  type := "text",
  sample_value_tokens := ["brazil"] }

/-- The context `how many medals`. -/
def ctxHMM : List String := ["how", "many", "medals"]

/-- C1, counterexample.  Under the `column` strategy with context
masking skipped (here the selected columns' tokens already exhaust
`max_predictions_per_seq`), `create_masked_lm_predictions` returns the
masked positions in shuffled column order, `[3, 4, 1, 2]`, which is not
strictly ascending — refuting the claim that the positions are always
strictly ascending, in particular in exactly this case.  The oracle
drives a legal execution: its sampler and shuffler satisfy
`SampleSpec`/`ShuffleSpec`. -/
theorem C1_counterexample :
    SampleSpec oracle ∧ ShuffleSpec oracle ∧
    cfgColumn.table_mask_strategy = "column" ∧
    (create_masked_lm_predictions cfgColumn oracle ["a", "b", "c", "d", "e", "f"] []
        [[1, 2], [3, 4]]).map MaskResult.masked_lm_positions = .ok [3, 4, 1, 2] ∧
    ¬ List.Sorted (· < ·) ([3, 4, 1, 2] : List Nat) :=
  ⟨oracle_sample_spec, oracle_shuffle_spec, by decide, by decide, by decide⟩

/-- C2.  When not even the first column fits in the table-token budget
(here the first column emits 4 tokens against a budget of 1), the row
buffer stays empty and `get_input` hits `row_input_tokens[-1]` on an
empty list: it raises `IndexError` instead of returning the
context-only sequence the claim (and the spec) require. -/
theorem C2_zero_columns_fit_raises :
    (((get_cell_input cfgSmall colCountry
          (colCountry.sample_value_tokens.take cfgSmall.max_cell_len)
          (ctxHMM.length + 2)).1.length + 1 : ℤ) >
        (cfgSmall.max_bert_input_length : ℤ) - ctxHMM.length - 2 - 1) ∧
    get_input cfgSmall ctxHMM ⟨"fake_table", [colCountry]⟩ =
      .error "IndexError: list index out of range" := by
  exact ⟨by decide, by decide⟩

/-- C3, counterexample.  With the rare-literal draw's probability fixed
to 0 (`oracle.rareFlip` is constantly `false`), the pretraining
instance for the scenario table masks position 5 — the first token of
the `country` cell, which lies in that column's `first_token` span
`(5, 6)` and not in its (empty) `other_tokens` — refuting the claim
that no `first_token`-span index is ever masked.  (Position 5 is also
the first `column_name` token, which is why it is a legal candidate.) -/
theorem C3_counterexample :
    (∀ c, oracle.rareFlip c = false) ∧
    (get_input cfgCT ctxHMM ⟨"fake_table", [colCountry]⟩).map
        (fun ii => ii.column_spans.map (fun q => (q.2.first_token, q.2.other_tokens))) =
      .ok [((5, 6), [])] ∧
    (create_pretraining_instance cfgCT oracle ctxHMM [colCountry]).map
        PretrainInstance.masked_lm_positions = .ok [1, 5, 6] ∧
    5 ∈ ([1, 5, 6] : List Nat) :=
  ⟨fun _ => rfl, by decide, by decide, by decide⟩

/-- C4, counterexample.  In table-first mode the sequence is
`[CLS] country text brazil [SEP] a [SEP]` and the context candidate
pool is `[4, 5]`: it contains index 4, the `[SEP]` boundary token
adjacent to the table side (the `[:-1]` slice only removes the far
final `[SEP]`), refuting the claim that the near boundary is never in
the pool. -/
theorem C4_counterexample :
    cfgTF.context_first = false ∧
    (get_input cfgTF ["a"] ⟨"fake_table", [colCountry]⟩).map
        (fun ii => (ii.tokens, context_candidates cfgTF ii)) =
      .ok (["[CLS]", "country", "text", "brazil", "[SEP]", "a", "[SEP]"], [4, 5]) ∧
    4 ∈ ([4, 5] : List Nat) := by
  exact ⟨by decide, by decide, by decide⟩

/-- C5, counterexample.  On the scenario input the returned
`column_name` span of `country` is `(5, 6)` — the table starts at
index 5 — not the `(6, 7)` asserted by the claim. -/
theorem C5_counterexample :
    (get_input cfgCT ctxHMM ⟨"fake_table", [colCountry]⟩).map
        (fun ii => ii.column_spans.map (fun q => (q.1, q.2.column_name))) =
      .ok [("country", some (5, 6))] ∧
    ((5, 6) : Nat × Nat) ≠ (6, 7) := by
  exact ⟨by decide, by decide⟩

/-- C5, amended.  For the scenario context `how many medals`, one
column `country`/`text`/`brazil`, template `[column, type, value]` and
`context_first = true`, `get_input` returns the token sequence
`[CLS] how many medals [SEP] country text brazil [SEP]` and records the
`column_name` span of `country` as `(5, 6)`. -/
theorem C5_scenario :
    (get_input cfgCT ctxHMM ⟨"fake_table", [colCountry]⟩).map
        (fun ii => (ii.tokens, ii.column_spans.map (fun q => (q.1, q.2.column_name)))) =
      .ok (["[CLS]", "how", "many", "medals", "[SEP]", "country", "text", "brazil", "[SEP]"],
        [("country", some (5, 6))]) := by
  decide

/-- C8, counterexample.  With the valid strategy `column` but an empty
column pool, `random.sample(range(0), 1)` raises `ValueError`: a valid
strategy value does not guarantee error-free completion, refuting the
"if and only if" of the claim. -/
theorem C8_counterexample :
    cfgColumn.table_mask_strategy = "column" ∧
    create_masked_lm_predictions cfgColumn oracle ["a"] [0] [] =
      .error "ValueError: Sample larger than population or is negative" := by
  exact ⟨by decide, by decide⟩

theorem countP_replicate {α : Type} (p : α → Bool) (n : Nat) (a : α) :
    (List.replicate n a).countP p = if p a then n else 0 := by
  induction n with
  | zero => simp
  | succ n ih =>
    rw [List.replicate_succ, List.countP_cons, ih]
    by_cases h : p a <;> simp [h]

/-- C8, amended.  An invalid `table_mask_strategy` (neither
`column_token` nor `column`) makes `create_masked_lm_predictions` fail
immediately with the fatal `RuntimeError`, on every input.  (The
converse of the claim is false: see the counterexample — a valid
strategy can still raise `ValueError` when a sample is larger than its
candidate pool.) -/
theorem C8_invalid_strategy_fatal (cfg : TableBertConfig) (rng : Rng) (tokens : List String)
    (context_indices : List Nat) (column_indices : List (List Nat))
    (h1 : cfg.table_mask_strategy ≠ "column_token")
    (h2 : cfg.table_mask_strategy ≠ "column") :
    create_masked_lm_predictions cfg rng tokens context_indices column_indices =
      .error "RuntimeError: unknown mode!" := by
  unfold create_masked_lm_predictions chooseColumnMasks
  simp [h1, h2]

/-- C8, witness for the amended theorem at a concrete invalid
strategy value. -/
theorem C8_witness :
    ({ cfgColumn with table_mask_strategy := "row" }).table_mask_strategy ≠ "column_token" ∧
    ({ cfgColumn with table_mask_strategy := "row" }).table_mask_strategy ≠ "column" ∧
    create_masked_lm_predictions { cfgColumn with table_mask_strategy := "row" } oracle
        ["a"] [0] [[1]] = .error "RuntimeError: unknown mode!" :=
  ⟨by decide, by decide,
    C8_invalid_strategy_fatal _ oracle ["a"] [0] [[1]] (by decide) (by decide)⟩

/-- C9.  Every instance returned by `get_input` has as many segment
ids as tokens, every segment id is 0 or 1, the sum of the segment ids
equals the total length minus the number of zeros (the derived
`segment_a_length`), and the segment-0 block is exactly the side
holding `[CLS]` through its boundary `[SEP]` while segment 1 covers
the other side, in both ordering modes; the sum equals the exact
length of the non-`[CLS]` side. -/
theorem C9_segment_invariants (cfg : TableBertConfig) (context : List String) (table : Table)
    (ii : PreInstance) (h : get_input cfg context table = .ok ii) :
    ii.tokens.length = ii.segment_ids.length ∧
    (∀ s ∈ ii.segment_ids, s = 0 ∨ s = 1) ∧
    ii.segment_ids.sum = ii.tokens.length - ii.segment_ids.countP (· == 0) ∧
    ∃ row : List String,
      (cfg.context_first = true →
        ii.tokens = ["[CLS]"] ++ context ++ ["[SEP]"] ++ row ++ ["[SEP]"] ∧
        ii.segment_ids = List.replicate (context.length + 2) 0 ++
          List.replicate (row.length + 1) 1 ∧
        ii.segment_ids.countP (· == 0) = context.length + 2 ∧
        ii.segment_ids.sum = row.length + 1) ∧
      (cfg.context_first = false →
        ii.tokens = ["[CLS]"] ++ row ++ ["[SEP]"] ++ context ++ ["[SEP]"] ∧
        ii.segment_ids = List.replicate (row.length + 2) 0 ++
          List.replicate (context.length + 1) 1 ∧
        ii.segment_ids.countP (· == 0) = row.length + 2 ∧
        ii.segment_ids.sum = context.length + 1) := by
  unfold get_input at h
  split at h
  · exact absurd h (by simp)
  split at h <;>
  · injection h with h
    subst h
    refine ⟨by simp; omega, ?_, ?_, ?_⟩
    · intro s hs
      simp [List.mem_append, List.mem_replicate] at hs
      omega
    · simp [List.countP_append, countP_replicate, List.sum_append, List.sum_replicate]
      omega
    · refine ⟨dropDelim cfg (rowOf cfg context table).1, fun hcf => ?_, fun hcf => ?_⟩ <;>
        simp_all [List.countP_append, countP_replicate, List.sum_append, List.sum_replicate]

/-- C9, witness: the invariants at the concrete scenario input. -/
theorem C9_witness :
    ∃ ii, get_input cfgCT ctxHMM ⟨"fake_table", [colCountry]⟩ = .ok ii ∧
      (ii.tokens.length = ii.segment_ids.length ∧
        (∀ s ∈ ii.segment_ids, s = 0 ∨ s = 1) ∧
        ii.segment_ids.sum = ii.tokens.length - ii.segment_ids.countP (· == 0)) := by
  refine ⟨(get_input cfgCT ctxHMM ⟨"fake_table", [colCountry]⟩).toOption.getD ⟨[], [], [], 0, []⟩, by decide, ?_⟩
  have h := C9_segment_invariants cfgCT ctxHMM ⟨"fake_table", [colCountry]⟩
    ((get_input cfgCT ctxHMM ⟨"fake_table", [colCountry]⟩).toOption.getD ⟨[], [], [], 0, []⟩) (by decide)
  exact ⟨h.1, h.2.1, h.2.2.1⟩

theorem pySample_ok {rng : Rng} {site : Nat} {population : List Nat} {k : Nat}
    {s : List Nat} (h : pySample rng site population k = .ok s) :
    s = rng.sampleFn site population k ∧ k ≤ population.length := by
  unfold pySample at h
  split at h
  · exact ⟨(Except.ok.injEq _ _).mp h.symm, by assumption⟩
  · exact absurd h (by simp)

theorem pySample_spec {rng : Rng} {site : Nat} {population : List Nat} {k : Nat}
    {s : List Nat} (hs : SampleSpec rng) (h : pySample rng site population k = .ok s) :
    s.length = k ∧ s.Subperm population := by
  obtain ⟨rfl, hk⟩ := pySample_ok h
  exact hs site population k hk

theorem applyMask_ok {rng : Rng} {idxs : List Nat} :
    ∀ {toks t' : List String} {i : Nat} {lbls : List String},
      applyMask rng toks idxs i = .ok (t', lbls) →
      t'.length = toks.length ∧ lbls.length = idxs.length := by
  induction idxs with
  | nil =>
    intro toks t' i lbls h
    unfold applyMask at h
    simp only [Except.ok.injEq, Prod.mk.injEq] at h
    simp [← h.1, ← h.2]
  | cons index rest ih =>
    intro toks t' i lbls h
    unfold applyMask at h
    split at h
    · dsimp only at h
      rcases hr : applyMask rng
          (toks.set index (if rng.maskFlip i then "[MASK]"
            else if rng.keepFlip i then toks.get ⟨index, by assumption⟩
            else rng.vocabPick i)) rest (i + 1) with e | pr
      · rw [hr] at h
        exact absurd h (by simp [Except.map])
      · rw [hr] at h
        simp only [Except.map, Except.ok.injEq, Prod.mk.injEq] at h
        obtain ⟨h1, h2⟩ := h
        obtain ⟨ihl, ihr⟩ := ih hr
        constructor
        · rw [← h1, ihl, List.length_set]
        · rw [← h2]
          simp [ihr]
    · exact absurd h (by simp)

theorem sublist_flatten {α : Type} {l₁ l₂ : List (List α)} (h : l₁.Sublist l₂) :
    l₁.flatten.Sublist l₂.flatten := by
  induction h with
  | slnil => exact List.Sublist.refl _
  | cons a h ih => exact ih.trans (by rw [List.flatten_cons]; exact List.sublist_append_right _ _)
  | cons₂ a h ih => rw [List.flatten_cons, List.flatten_cons]; exact ih.append_left a

theorem subperm_flatten {α : Type} {l₁ l₂ : List (List α)} (h : l₁.Subperm l₂) :
    l₁.flatten.Subperm l₂.flatten := by
  obtain ⟨u, hu, hs⟩ := h
  exact ⟨u.flatten, hu.flatten, sublist_flatten hs⟩

theorem range_map_getD {α : Type} [Inhabited α] (l : List α) (d : α) :
    (List.range l.length).map (fun i => l.getD i d) = l := by
  induction l with
  | nil => simp
  | cons a t ih =>
    rw [List.length_cons, List.range_succ_eq_map, List.map_cons, List.getD_cons_zero,
      List.map_map]
    have hcomp : ((fun i => (a :: t).getD i d) ∘ Nat.succ) = (fun i => t.getD i d) :=
      funext (fun i => List.getD_cons_succ)
    rw [hcomp, ih]

theorem subperm_nodup {α : Type} {l₁ l₂ : List α} (h : l₁.Subperm l₂) (hn : l₂.Nodup) :
    l₁.Nodup := by
  obtain ⟨u, hu, hs⟩ := h
  exact hu.nodup (hs.nodup hn)

theorem chooseColumnMasks_ok {cfg : TableBertConfig} {rng : Rng}
    {cols : List (List Nat)} {mci : List Nat} {n : Nat} {o : Option Nat}
    (h : chooseColumnMasks cfg rng cols = .ok (mci, n, o)) :
    (cfg.table_mask_strategy = "column_token" ∧ n = numColumnTokensCT cfg cols ∧ o = none ∧
      ∃ s, pySample rng 0 (rng.shuffleFn 0 cols.flatten) (numColumnTokensCT cfg cols) = .ok s ∧
        mci = pySorted s) ∨
    (cfg.table_mask_strategy ≠ "column_token" ∧ cfg.table_mask_strategy = "column" ∧
      o = some (numColumnsToMask cfg cols) ∧
      ∃ s, pySample rng 0 (List.range cols.length) (numColumnsToMask cfg cols) = .ok s ∧
        mci = ((rng.shuffleFn 1 (pySorted s)).map (fun i => cols.getD i [])).flatten ∧
        n = ((rng.shuffleFn 1 (pySorted s)).map (fun i => (cols.getD i []).length)).sum) := by
  unfold chooseColumnMasks at h
  split at h
  · left
    rcases hs : pySample rng 0 (rng.shuffleFn 0 cols.flatten) (numColumnTokensCT cfg cols)
      with e | s
    · rw [hs] at h
      exact absurd h (by simp [Except.map])
    · rw [hs] at h
      simp only [Except.map, Except.ok.injEq, Prod.mk.injEq] at h
      exact ⟨by assumption, h.2.1.symm, h.2.2.symm, s, rfl, h.1.symm⟩
  · split at h
    · right
      rcases hs : pySample rng 0 (List.range cols.length) (numColumnsToMask cfg cols)
        with e | s
      · rw [hs] at h
        exact absurd h (by simp [Except.map])
      · rw [hs] at h
        simp only [Except.map, Except.ok.injEq, Prod.mk.injEq] at h
        exact ⟨by assumption, by assumption, h.2.2.symm, s, rfl, h.1.symm, h.2.1.symm⟩
    · exact absurd h (by simp)

theorem create_mlm_ok {cfg : TableBertConfig} {rng : Rng} {toks : List String}
    {ctx : List Nat} {cols : List (List Nat)} {r : MaskResult}
    (h : create_masked_lm_predictions cfg rng toks ctx cols = .ok r) :
    ∃ mci n o, chooseColumnMasks cfg rng cols = .ok (mci, n, o) ∧
      r.info.num_column_tokens_to_mask = n ∧
      r.info.num_masked_columns = o ∧
      r.info.num_context_tokens_to_mask = numContextTokensToMask cfg n ctx ∧
      r.info.num_maskable_column_tokens = (cols.map List.length).sum ∧
      ((0 < numContextTokensToMask cfg n ctx ∧
          ∃ cs, pySample rng 1 (rng.shuffleFn 2 ctx)
              (numContextTokensToMask cfg n ctx).toNat = .ok cs ∧
            r.masked_lm_positions = pySorted (pySorted cs ++ mci)) ∨
        (¬ 0 < numContextTokensToMask cfg n ctx ∧ r.masked_lm_positions = mci)) ∧
      ∃ t', applyMask rng toks r.masked_lm_positions 0 = .ok (t', r.masked_lm_labels) ∧
        r.tokens = t' := by
  unfold create_masked_lm_predictions at h
  rcases hcc : chooseColumnMasks cfg rng cols with e | trip
  · rw [hcc] at h
    exact absurd h (by simp)
  obtain ⟨mci, n, o⟩ := trip
  rw [hcc] at h
  dsimp only at h
  refine ⟨mci, n, o, rfl, ?_⟩
  by_cases hpos : 0 < numContextTokensToMask cfg n ctx
  · rw [if_pos hpos] at h
    rcases hcs : pySample rng 1 (rng.shuffleFn 2 ctx) (numContextTokensToMask cfg n ctx).toNat
      with e | cs
    · rw [hcs] at h
      exact absurd h (by simp [Except.map])
    rw [hcs] at h
    simp only [Except.map] at h
    rcases ham : applyMask rng toks (pySorted (pySorted cs ++ mci)) 0 with e | pr
    · rw [ham] at h
      exact absurd h (by simp)
    rw [ham] at h
    simp only [Except.ok.injEq] at h
    subst h
    exact ⟨rfl, rfl, rfl, rfl, Or.inl ⟨hpos, cs, rfl, rfl⟩, pr.1, by rw [ham], rfl⟩
  · rw [if_neg hpos] at h
    dsimp only at h
    rcases ham : applyMask rng toks mci 0 with e | pr
    · rw [ham] at h
      exact absurd h (by simp)
    rw [ham] at h
    simp only [Except.ok.injEq] at h
    subst h
    exact ⟨rfl, rfl, rfl, rfl, Or.inr ⟨hpos, rfl⟩, pr.1, by rw [ham], rfl⟩

theorem subperm_map {α β : Type} (f : α → β) {l₁ l₂ : List α} (h : l₁.Subperm l₂) :
    (l₁.map f).Subperm (l₂.map f) := by
  obtain ⟨u, hu, hsub⟩ := h
  exact ⟨u.map f, hu.map f, hsub.map f⟩

theorem pySorted_perm (l : List Nat) : (pySorted l).Perm l :=
  List.perm_insertionSort _ l

theorem pySorted_length (l : List Nat) : (pySorted l).length = l.length :=
  List.length_insertionSort _ l

theorem chooseColumnMasks_length {cfg : TableBertConfig} {rng : Rng}
    {cols : List (List Nat)} {mci : List Nat} {n : Nat} {o : Option Nat}
    (hs : SampleSpec rng) (h : chooseColumnMasks cfg rng cols = .ok (mci, n, o)) :
    mci.length = n := by
  rcases chooseColumnMasks_ok h with ⟨_, hn, _, s, hsamp, hmci⟩ | ⟨_, _, _, s, hsamp, hmci, hn⟩
  · rw [hmci, pySorted_length, (pySample_spec hs hsamp).1, hn]
  · rw [hmci, hn, List.length_flatten, List.map_map]
    rfl

theorem chooseColumnMasks_subperm {cfg : TableBertConfig} {rng : Rng}
    {cols : List (List Nat)} {mci : List Nat} {n : Nat} {o : Option Nat}
    (hs : SampleSpec rng) (hsh : ShuffleSpec rng)
    (h : chooseColumnMasks cfg rng cols = .ok (mci, n, o)) :
    mci.Subperm cols.flatten := by
  rcases chooseColumnMasks_ok h with ⟨_, _, _, s, hsamp, hmci⟩ | ⟨_, _, _, s, hsamp, hmci, _⟩
  · have h1 : s.Subperm (rng.shuffleFn 0 cols.flatten) := (pySample_spec hs hsamp).2
    have h2 : s.Subperm cols.flatten := ((hsh 0 cols.flatten).subperm_left.mp h1)
    rw [hmci]
    exact ((pySorted_perm s).subperm_right.mpr h2)
  · have h1 : s.Subperm (List.range cols.length) := (pySample_spec hs hsamp).2
    have h2 : (rng.shuffleFn 1 (pySorted s)).Subperm (List.range cols.length) :=
      ((hsh 1 (pySorted s)).trans (pySorted_perm s)).subperm_right.mpr h1
    have h3 := subperm_flatten (subperm_map (fun i => cols.getD i []) h2)
    rw [range_map_getD cols []] at h3
    rw [hmci]
    exact h3

theorem mci_mem_positions {cfg : TableBertConfig} {rng : Rng} {toks : List String}
    {ctx : List Nat} {cols : List (List Nat)} {r : MaskResult} {mci : List Nat}
    {n : Nat} {o : Option Nat}
    (hok : create_masked_lm_predictions cfg rng toks ctx cols = .ok r)
    (hcc : chooseColumnMasks cfg rng cols = .ok (mci, n, o)) :
    ∀ p ∈ mci, p ∈ r.masked_lm_positions := by
  obtain ⟨mci', n', o', hcc', _, _, _, _, hbranch, _⟩ := create_mlm_ok hok
  have heq := hcc'.symm.trans hcc
  simp only [Except.ok.injEq, Prod.mk.injEq] at heq
  obtain ⟨h1, h2, h3⟩ := heq
  subst h1
  intro p hp
  rcases hbranch with ⟨_, cs, _, hpos⟩ | ⟨_, hpos⟩
  · rw [hpos, (pySorted_perm _).mem_iff, List.mem_append]
    exact Or.inr hp
  · rw [hpos]
    exact hp

/-- C7.  For every returning invocation of
`create_masked_lm_predictions` (with a well-behaved sampler): under
`column_token` the recorded number of masked column tokens equals
`min(max_predictions_per_seq, max(2, int(pool * masked_column_prob)))`
over the flattened pool; under either strategy the recorded context
count equals
`min(max_predictions_per_seq - num_column_tokens, max(1, int(len(ctx) * masked_context_prob)))`,
this count is positive exactly when the context budget
`max_predictions_per_seq - num_column_tokens` is positive, and the
number of masked positions is the column count plus the context count
when the latter is positive and the column count alone when context
masking is skipped. -/
theorem C7_mask_counts (cfg : TableBertConfig) (rng : Rng) (toks : List String)
    (ctx : List Nat) (cols : List (List Nat)) (r : MaskResult)
    (hs : SampleSpec rng)
    (hok : create_masked_lm_predictions cfg rng toks ctx cols = .ok r) :
    (cfg.table_mask_strategy = "column_token" →
      r.info.num_column_tokens_to_mask =
        min cfg.max_predictions_per_seq
          (max 2 (pyInt ((cols.flatten.length : ℚ) * cfg.masked_column_prob)).toNat)) ∧
    r.info.num_context_tokens_to_mask =
      min ((cfg.max_predictions_per_seq : ℤ) - r.info.num_column_tokens_to_mask)
        (max 1 (pyInt ((ctx.length : ℚ) * cfg.masked_context_prob))) ∧
    (0 < r.info.num_context_tokens_to_mask ↔
      0 < (cfg.max_predictions_per_seq : ℤ) - r.info.num_column_tokens_to_mask) ∧
    r.masked_lm_positions.length =
      r.info.num_column_tokens_to_mask +
        (if 0 < r.info.num_context_tokens_to_mask then
          r.info.num_context_tokens_to_mask.toNat else 0) := by
  obtain ⟨mci, n, o, hcc, hn, ho, hctx, hmaskable, hbranch, _⟩ := create_mlm_ok hok
  have hlen : mci.length = n := chooseColumnMasks_length hs hcc
  refine ⟨?_, ?_, ?_, ?_⟩
  · intro hstrat
    rcases chooseColumnMasks_ok hcc with ⟨_, hn', _, _, _, _⟩ | ⟨hne, _, _, _, _, _⟩
    · rw [hn, hn']
      rfl
    · exact absurd hstrat hne
  · rw [hctx, hn]
    rfl
  · rw [hctx, hn]
    unfold numContextTokensToMask
    have h1 : (1 : ℤ) ≤ max 1 (pyInt ((ctx.length : ℚ) * cfg.masked_context_prob)) :=
      le_max_left _ _
    omega
  · rcases hbranch with ⟨hpos, cs, hcs, hposs⟩ | ⟨hpos, hposs⟩
    · have hcslen : cs.length = (numContextTokensToMask cfg n ctx).toNat :=
        (pySample_spec hs hcs).1
      rw [hposs, hn, hctx, if_pos hpos, pySorted_length, List.length_append,
        pySorted_length, hcslen, hlen]
      omega
    · rw [hposs, hn, hctx, if_neg hpos, hlen]
      omega

/-- C7, witness: the counts at a concrete `column_token` run. -/
theorem C7_witness :
    ∃ r, create_masked_lm_predictions cfgCT oracle
        ["[CLS]", "how", "many", "medals", "[SEP]", "country", "text", "brazil", "[SEP]"]
        [1, 2, 3] [[5], [6]] = .ok r ∧
      ((cfgCT.table_mask_strategy = "column_token" →
        r.info.num_column_tokens_to_mask =
          min cfgCT.max_predictions_per_seq
            (max 2 (pyInt ((([[5], [6]] : List (List Nat)).flatten.length : ℚ) *
              cfgCT.masked_column_prob)).toNat)) ∧
      r.info.num_context_tokens_to_mask =
        min ((cfgCT.max_predictions_per_seq : ℤ) - r.info.num_column_tokens_to_mask)
          (max 1 (pyInt ((([1, 2, 3] : List Nat).length : ℚ) * cfgCT.masked_context_prob))) ∧
      (0 < r.info.num_context_tokens_to_mask ↔
        0 < (cfgCT.max_predictions_per_seq : ℤ) - r.info.num_column_tokens_to_mask) ∧
      r.masked_lm_positions.length =
        r.info.num_column_tokens_to_mask +
          (if 0 < r.info.num_context_tokens_to_mask then
            r.info.num_context_tokens_to_mask.toNat else 0)) := by
  refine ⟨(create_masked_lm_predictions cfgCT oracle
      ["[CLS]", "how", "many", "medals", "[SEP]", "country", "text", "brazil", "[SEP]"]
      [1, 2, 3] [[5], [6]]).toOption.getD ⟨[], [], [], 0, none, 0, 0, none⟩, by decide, ?_⟩
  exact C7_mask_counts cfgCT oracle
    ["[CLS]", "how", "many", "medals", "[SEP]", "country", "text", "brazil", "[SEP]"]
    [1, 2, 3] [[5], [6]]
    ((create_masked_lm_predictions cfgCT oracle
      ["[CLS]", "how", "many", "medals", "[SEP]", "country", "text", "brazil", "[SEP]"]
      [1, 2, 3] [[5], [6]]).toOption.getD ⟨[], [], [], 0, none, 0, 0, none⟩)
    oracle_sample_spec (by decide)

/-- C6.  For every returning invocation with strategy `column` (and a
well-behaved sampler/shuffler): the diagnostics record
`num_masked_columns = max(1, ceil(numColumns * masked_column_prob))`,
and there is a set of that many distinct column ids such that every
candidate index of every selected column appears in the returned
masked positions (columns are masked atomically). -/
theorem C6_column_strategy (cfg : TableBertConfig) (rng : Rng) (toks : List String)
    (ctx : List Nat) (cols : List (List Nat)) (r : MaskResult)
    (hstrat : cfg.table_mask_strategy = "column")
    (hs : SampleSpec rng) (hsh : ShuffleSpec rng)
    (hok : create_masked_lm_predictions cfg rng toks ctx cols = .ok r) :
    r.info.num_masked_columns =
      some (max 1 (((cols.length : ℚ) * cfg.masked_column_prob).ceil.toNat)) ∧
    ∃ sel : List Nat, sel.Subperm (List.range cols.length) ∧
      sel.length = max 1 (((cols.length : ℚ) * cfg.masked_column_prob).ceil.toNat) ∧
      ∀ i ∈ sel, ∀ p ∈ cols.getD i [], p ∈ r.masked_lm_positions := by
  obtain ⟨mci, n, o, hcc, hn, ho, hctx, hmaskable, hbranch, _⟩ := create_mlm_ok hok
  rcases chooseColumnMasks_ok hcc with ⟨hct, _, _, _, _, _⟩ | ⟨_, _, hsome, s, hsamp, hmci, _⟩
  · rw [hstrat] at hct
    exact absurd hct (by decide)
  refine ⟨by simp [ho, hsome, numColumnsToMask], rng.shuffleFn 1 (pySorted s), ?_, ?_, ?_⟩
  · exact ((hsh 1 (pySorted s)).trans (pySorted_perm s)).subperm_right.mpr
      (pySample_spec hs hsamp).2
  · rw [((hsh 1 (pySorted s)).trans (pySorted_perm s)).length_eq,
      (pySample_spec hs hsamp).1]
    rfl
  · intro i hi p hp
    have hpm : p ∈ mci := by
      rw [hmci]
      exact List.mem_flatten.mpr ⟨cols.getD i [], List.mem_map_of_mem _ hi, hp⟩
    exact mci_mem_positions hok hcc p hpm

/-- Concrete configuration for the C6 scenario: `column` strategy with
`masked_column_prob = 1/2` and a tight prediction budget. -/
def cfgHalf : TableBertConfig := {
  cfgColumn with
  masked_column_prob := 1/2,
  max_predictions_per_seq := 2 }

/-- The four singleton column candidate pools of the C6 scenario. -/
def cols4 : List (List Nat) := [[1], [2], [3], [4]]

/-- C6, witness: with `masked_column_prob = 1/2` and 4 columns exactly
`ceil(4 * 0.5) = 2` whole columns are selected, each masked
atomically. -/
theorem C6_witness :
    max 1 (((cols4.length : ℚ) * cfgHalf.masked_column_prob).ceil.toNat) = 2 ∧
    cfgHalf.table_mask_strategy = "column" ∧
    ∃ r, create_masked_lm_predictions cfgHalf oracle
        ["a", "b", "c", "d", "e"] [] cols4 = .ok r ∧
      (r.info.num_masked_columns =
        some (max 1 (((cols4.length : ℚ) * cfgHalf.masked_column_prob).ceil.toNat)) ∧
      ∃ sel : List Nat, sel.Subperm (List.range cols4.length) ∧
        sel.length = max 1 (((cols4.length : ℚ) * cfgHalf.masked_column_prob).ceil.toNat) ∧
        ∀ i ∈ sel, ∀ p ∈ cols4.getD i [], p ∈ r.masked_lm_positions) := by
  refine ⟨by decide, by decide,
    (create_masked_lm_predictions cfgHalf oracle ["a", "b", "c", "d", "e"] []
      cols4).toOption.getD ⟨[], [], [], 0, none, 0, 0, none⟩, by decide, ?_⟩
  exact C6_column_strategy cfgHalf oracle ["a", "b", "c", "d", "e"] [] cols4
    ((create_masked_lm_predictions cfgHalf oracle ["a", "b", "c", "d", "e"] []
      cols4).toOption.getD ⟨[], [], [], 0, none, 0, 0, none⟩)
    (by decide) oracle_sample_spec oracle_shuffle_spec (by decide)

theorem pySorted_sorted (l : List Nat) : (pySorted l).Sorted (· ≤ ·) :=
  List.sorted_insertionSort _ l

/-- C1, amended.  For every returning invocation (with a sampler that
draws without replacement and a permuting shuffler, on candidate pools
of distinct, mutually disjoint indices — as the program produces): the
masked sequence keeps the input length, positions and labels have
equal length, the positions are always unique, and they are strictly
ascending under the `column_token` strategy and whenever context
masking takes place.  (In the remaining case — `column` strategy with
context masking skipped — the counterexample shows the positions need
not be ascending.) -/
theorem C1_amended (cfg : TableBertConfig) (rng : Rng) (toks : List String)
    (ctx : List Nat) (cols : List (List Nat)) (r : MaskResult)
    (hs : SampleSpec rng) (hsh : ShuffleSpec rng)
    (hctx : ctx.Nodup) (hcols : cols.flatten.Nodup)
    (hdisj : ∀ i ∈ ctx, i ∉ cols.flatten)
    (hok : create_masked_lm_predictions cfg rng toks ctx cols = .ok r) :
    r.tokens.length = toks.length ∧
    r.masked_lm_positions.length = r.masked_lm_labels.length ∧
    r.masked_lm_positions.Nodup ∧
    ((cfg.table_mask_strategy = "column_token" ∨ 0 < r.info.num_context_tokens_to_mask) →
      r.masked_lm_positions.Sorted (· < ·)) := by
  obtain ⟨mci, n, o, hcc, hn, ho, hctxeq, _, hbranch, t', ham, htok⟩ := create_mlm_ok hok
  have hsubm : mci.Subperm cols.flatten := chooseColumnMasks_subperm hs hsh hcc
  have hmnodup : mci.Nodup := subperm_nodup hsubm hcols
  have hposnodup : r.masked_lm_positions.Nodup := by
    rcases hbranch with ⟨hpos, cs, hcs, hposs⟩ | ⟨hpos, hposs⟩
    · have hcssub : cs.Subperm ctx :=
        (hsh 2 ctx).subperm_left.mp (pySample_spec hs hcs).2
      have hcsnodup : cs.Nodup := subperm_nodup hcssub hctx
      have happ : ((pySorted cs) ++ mci).Nodup := by
        refine List.Nodup.append ((pySorted_perm cs).symm.nodup hcsnodup) hmnodup ?_
        intro a ha hamci
        exact hdisj a (hcssub.subset ((pySorted_perm cs).mem_iff.mp ha))
          (hsubm.subset hamci)
      rw [hposs]
      exact (pySorted_perm _).symm.nodup happ
    · rw [hposs]
      exact hmnodup
  refine ⟨?_, ?_, hposnodup, ?_⟩
  · rw [htok]
    exact (applyMask_ok ham).1
  · exact ((applyMask_ok ham).2).symm
  · intro hcond
    rcases hbranch with ⟨hpos, cs, hcs, hposs⟩ | ⟨hpos, hposs⟩
    · rw [hposs]
      exact (pySorted_sorted _).lt_of_le (by rw [← hposs]; exact hposnodup)
    · rcases hcond with hct | hpos'
      · rcases chooseColumnMasks_ok hcc with ⟨_, _, _, s, _, hmci⟩ | ⟨hne, _, _, _, _, _⟩
        · rw [hposs, hmci]
          exact (pySorted_sorted _).lt_of_le
            (by rw [← hmci, ← hposs]; exact hposnodup)
        · exact absurd hct hne
      · rw [hctxeq] at hpos'
        exact absurd hpos' hpos

/-- C1, witness for the amended theorem: a concrete `column_token` run
with context masking, whose positions come out strictly ascending. -/
theorem C1_witness :
    SampleSpec oracle ∧ ShuffleSpec oracle ∧
    ([1, 2, 3] : List Nat).Nodup ∧ ([[5], [6]] : List (List Nat)).flatten.Nodup ∧
    (∀ i ∈ ([1, 2, 3] : List Nat), i ∉ ([[5], [6]] : List (List Nat)).flatten) ∧
    ∃ r, create_masked_lm_predictions cfgCT oracle
        ["[CLS]", "how", "many", "medals", "[SEP]", "country", "text", "brazil", "[SEP]"]
        [1, 2, 3] [[5], [6]] = .ok r ∧
      (r.tokens.length = 9 ∧
        r.masked_lm_positions.length = r.masked_lm_labels.length ∧
        r.masked_lm_positions.Nodup ∧
        ((cfgCT.table_mask_strategy = "column_token" ∨
            0 < r.info.num_context_tokens_to_mask) →
          r.masked_lm_positions.Sorted (· < ·))) := by
  refine ⟨oracle_sample_spec, oracle_shuffle_spec, by decide, by decide, by decide,
    (create_masked_lm_predictions cfgCT oracle
      ["[CLS]", "how", "many", "medals", "[SEP]", "country", "text", "brazil", "[SEP]"]
      [1, 2, 3] [[5], [6]]).toOption.getD ⟨[], [], [], 0, none, 0, 0, none⟩, by decide, ?_⟩
  exact C1_amended cfgCT oracle
    ["[CLS]", "how", "many", "medals", "[SEP]", "country", "text", "brazil", "[SEP]"]
    [1, 2, 3] [[5], [6]]
    ((create_masked_lm_predictions cfgCT oracle
      ["[CLS]", "how", "many", "medals", "[SEP]", "country", "text", "brazil", "[SEP]"]
      [1, 2, 3] [[5], [6]]).toOption.getD ⟨[], [], [], 0, none, 0, 0, none⟩)
    oracle_sample_spec oracle_shuffle_spec (by decide) (by decide) (by decide) (by decide)

/-- C4, amended.  In context-first mode the context candidate pool is
exactly the context word indices `1..len(ctx)` — neither boundary token
is in it.  In table-first mode the pool is
`[len(row)+1, ..., len(row)+len(ctx)+1]`: it contains `len(row)+1`,
the index of the `[SEP]` adjacent to the table side, and excludes only
the far final `[SEP]` — the opposite of what the claim states for this
mode. -/
theorem C4_amended (cfg : TableBertConfig) (ctx : List String) (table : Table)
    (ii : PreInstance) (h : get_input cfg ctx table = .ok ii) :
    (cfg.context_first = true →
      context_candidates cfg ii = (List.range ctx.length).map (· + 1) ∧
      0 ∉ context_candidates cfg ii ∧
      (ctx.length + 1) ∉ context_candidates cfg ii) ∧
    (cfg.context_first = false →
      ∃ row : List String,
        ii.tokens = ["[CLS]"] ++ row ++ ["[SEP]"] ++ ctx ++ ["[SEP]"] ∧
        context_candidates cfg ii = List.range' (row.length + 1) (ctx.length + 1) ∧
        (row.length + 1) ∈ context_candidates cfg ii ∧
        ii.tokens.getD (row.length + 1) "" = "[SEP]" ∧
        (row.length + 1 + ctx.length + 1) ∉ context_candidates cfg ii) := by
  unfold get_input at h
  split at h
  · exact absurd h (by simp)
  split at h
  · rename_i hcf
    injection h with h
    subst h
    refine ⟨fun _ => ⟨?_, ?_, ?_⟩, fun hcf' => absurd hcf (by simp [hcf'])⟩
    · show (if cfg.context_first then _ else _) = _
      rw [if_pos hcf]
      show (List.range (1 + ctx.length)).drop 1 = _
      rw [Nat.add_comm 1 ctx.length, List.range_succ_eq_map]
      simp [Nat.succ_eq_add_one]
    · show 0 ∉ (if cfg.context_first then _ else _)
      rw [if_pos hcf]
      show 0 ∉ (List.range (1 + ctx.length)).drop 1
      rw [Nat.add_comm 1 ctx.length, List.range_succ_eq_map]
      simp
    · show ctx.length + 1 ∉ (if cfg.context_first then _ else _)
      rw [if_pos hcf]
      show ctx.length + 1 ∉ (List.range (1 + ctx.length)).drop 1
      rw [Nat.add_comm 1 ctx.length, List.range_succ_eq_map]
      simp only [List.drop_succ_cons, List.drop_zero, List.mem_map]
      rintro ⟨i, hi, hie⟩
      rw [List.mem_range] at hi
      omega
  · rename_i hcf
    injection h with h
    subst h
    have hcf' : cfg.context_first = false := by
      cases hb : cfg.context_first
      · rfl
      · exact absurd hb hcf
    refine ⟨fun hh => absurd hh (by simp [hcf']), fun _ => ?_⟩
    have hpool : context_candidates cfg
        { tokens := ["[CLS]"] ++ dropDelim cfg (rowOf cfg ctx table).1 ++ ["[SEP]"] ++
            ctx ++ ["[SEP]"],
          segment_ids :=
            List.replicate ((dropDelim cfg (rowOf cfg ctx table).1).length + 2) 0 ++
            List.replicate (ctx.length + 1) 1,
          column_spans := (rowOf cfg ctx table).2,
          context_length := 1 + ctx.length,
          context_token_indices :=
            List.range' ((dropDelim cfg (rowOf cfg ctx table).1).length + 1)
              (ctx.length + 2) } =
        List.range' ((dropDelim cfg (rowOf cfg ctx table).1).length + 1) (ctx.length + 1) := by
      show (if cfg.context_first then _ else _) = _
      rw [hcf']
      show (List.range' ((dropDelim cfg (rowOf cfg ctx table).1).length + 1)
          (ctx.length + 2)).dropLast = _
      rw [List.range'_concat, List.dropLast_concat]
    refine ⟨dropDelim cfg (rowOf cfg ctx table).1, rfl, hpool, ?_, ?_, ?_⟩
    · rw [hpool]
      exact List.mem_range'.mpr ⟨0, by omega, by simp⟩
    · show (["[CLS]"] ++ dropDelim cfg (rowOf cfg ctx table).1 ++ ["[SEP]"] ++
          ctx ++ ["[SEP]"]).getD
            ((dropDelim cfg (rowOf cfg ctx table).1).length + 1) "" = "[SEP]"
      simp only [List.cons_append, List.nil_append]
      rw [List.getD_eq_getElem?_getD, List.getElem?_cons_succ,
        List.getElem?_append_left (by simp), List.getElem?_append_left (by simp),
        List.getElem?_append_right (le_refl _), Nat.sub_self]
      rfl
    · rw [hpool]
      intro hmem
      rw [List.mem_range'] at hmem
      obtain ⟨i, hi, hie⟩ := hmem
      omega

/-- C4, witness: the amended statement at the concrete scenario, in
both ordering modes. -/
theorem C4_witness :
    (∃ ii, get_input cfgCT ctxHMM ⟨"fake_table", [colCountry]⟩ = .ok ii ∧
      (cfgCT.context_first = true →
        context_candidates cfgCT ii = (List.range ctxHMM.length).map (· + 1) ∧
        0 ∉ context_candidates cfgCT ii ∧
        (ctxHMM.length + 1) ∉ context_candidates cfgCT ii)) ∧
    (∃ ii, get_input cfgTF ["a"] ⟨"fake_table", [colCountry]⟩ = .ok ii ∧
      (cfgTF.context_first = false →
        ∃ row : List String,
          ii.tokens = ["[CLS]"] ++ row ++ ["[SEP]"] ++ ["a"] ++ ["[SEP]"] ∧
          context_candidates cfgTF ii =
            List.range' (row.length + 1) (("a" :: []).length + 1) ∧
          (row.length + 1) ∈ context_candidates cfgTF ii ∧
          ii.tokens.getD (row.length + 1) "" = "[SEP]" ∧
          (row.length + 1 + ("a" :: []).length + 1) ∉ context_candidates cfgTF ii)) := by
  constructor
  · refine ⟨(get_input cfgCT ctxHMM ⟨"fake_table", [colCountry]⟩).toOption.getD
      ⟨[], [], [], 0, []⟩, by decide, ?_⟩
    exact (C4_amended cfgCT ctxHMM ⟨"fake_table", [colCountry]⟩
      ((get_input cfgCT ctxHMM ⟨"fake_table", [colCountry]⟩).toOption.getD
        ⟨[], [], [], 0, []⟩) (by decide)).1
  · refine ⟨(get_input cfgTF ["a"] ⟨"fake_table", [colCountry]⟩).toOption.getD
      ⟨[], [], [], 0, []⟩, by decide, ?_⟩
    exact (C4_amended cfgTF ["a"] ⟨"fake_table", [colCountry]⟩
      ((get_input cfgTF ["a"] ⟨"fake_table", [colCountry]⟩).toOption.getD
        ⟨[], [], [], 0, []⟩) (by decide)).2

theorem cellStep_no_column {col : Column} {v : List String} {off : Nat} :
    ∀ {template input sm}, "column" ∉ template →
      ((cellStep col v off template input sm).2).column_name = sm.column_name := by
  intro template
  induction template with
  | nil => intro input sm _; rfl
  | cons token rest ih =>
    intro input sm h
    rw [List.mem_cons, not_or] at h
    obtain ⟨h1, h2⟩ := h
    unfold cellStep
    split
    · rename_i hc
      exact absurd hc.symm h1
    split
    · exact ih h2
    split
    · exact ih h2
    · exact ih h2

theorem cellStep_no_type {col : Column} {v : List String} {off : Nat} :
    ∀ {template input sm}, "type" ∉ template →
      ((cellStep col v off template input sm).2).type = sm.type := by
  intro template
  induction template with
  | nil => intro input sm _; rfl
  | cons token rest ih =>
    intro input sm h
    rw [List.mem_cons, not_or] at h
    obtain ⟨h1, h2⟩ := h
    unfold cellStep
    split
    · exact ih h2
    split
    · exact ih h2
    split
    · rename_i ht
      exact absurd ht.symm h1
    · exact ih h2

theorem get_cell_input_no_column {cfg : TableBertConfig} {col : Column}
    {v : List String} {off : Nat} (h : "column" ∉ cfg.cell_input_template) :
    ((get_cell_input cfg col v off).2).column_name = none :=
  cellStep_no_column h

theorem get_cell_input_no_type {cfg : TableBertConfig} {col : Column}
    {v : List String} {off : Nat} (h : "type" ∉ cfg.cell_input_template) :
    ((get_cell_input cfg col v off).2).type = none :=
  cellStep_no_type h

theorem dictInsert_mem {m : List (String × SpanMap)} {k : String} {v : SpanMap}
    {q : String × SpanMap} (h : q ∈ dictInsert m k v) : q ∈ m ∨ q.2 = v := by
  unfold dictInsert at h
  split at h
  · rw [List.mem_map] at h
    obtain ⟨p, hp, hpe⟩ := h
    by_cases hk : p.1 == k
    · rw [if_pos hk] at hpe
      right
      rw [← hpe]
    · rw [if_neg hk] at hpe
      left
      rw [← hpe]
      exact hp
  · rw [List.mem_append] at h
    rcases h with h | h
    · exact Or.inl h
    · right
      rw [List.mem_singleton] at h
      rw [h]

theorem buildRow_maps_prop (cfg : TableBertConfig) (mt : ℤ) (P : SpanMap → Prop)
    (hcell : ∀ col v off, P (get_cell_input cfg col v off).2) :
    ∀ (cols : List Column) (row : List String) (start : Nat)
      (maps : List (String × SpanMap)), (∀ q ∈ maps, P q.2) →
      ∀ q ∈ (buildRow cfg mt cols row start maps).2, P q.2 := by
  intro cols
  induction cols with
  | nil => intro row start maps hmaps q hq; exact hmaps q hq
  | cons col rest ih =>
    intro row start maps hmaps q hq
    unfold buildRow at hq
    dsimp only at hq
    split at hq
    · exact hmaps q hq
    · refine ih _ _ _ ?_ q hq
      intro q' hq'
      rcases dictInsert_mem hq' with h | h
      · exact hmaps q' h
      · rw [h]
        exact hcell _ _ _

theorem columnCandidates_head_error (rng : Rng) {q : String × SpanMap}
    (qs : List (String × SpanMap)) (c : Nat)
    (h : q.2.column_name = none ∨ q.2.type = none) :
    ∃ e, columnCandidates rng (q :: qs) c = .error e ∧
      (e = "KeyError: column_name" ∨ e = "KeyError: type") := by
  obtain ⟨name, sm⟩ := q
  rcases hcn : sm.column_name with _ | p
  · exact ⟨"KeyError: column_name", by unfold columnCandidates; rw [hcn], Or.inl rfl⟩
  · rcases hty : sm.type with _ | p'
    · exact ⟨"KeyError: type", by unfold columnCandidates; rw [hcn, hty], Or.inr rfl⟩
    · rcases h with h | h
      · rw [hcn] at h
        exact absurd h (by simp)
      · rw [hty] at h
        exact absurd h (by simp)

theorem get_input_column_spans {cfg : TableBertConfig} {ctx : List String}
    {table : Table} {ii : PreInstance} (h : get_input cfg ctx table = .ok ii) :
    ii.column_spans = (rowOf cfg ctx table).2 := by
  unfold get_input at h
  split at h
  · exact absurd h (by simp)
  split at h <;>
  · injection h with h
    subst h
    rfl

/-- C10.  When the configured `cell_input_template` omits the `column`
marker or the `type` marker, and the built instance includes at least
one column, `create_pretraining_instance` fails with the missing-key
(`KeyError`) lookup during candidate-pool construction, because it
reads `span['column_name']` and `span['type']` unconditionally while
`get_cell_input` only creates those entries for markers present in the
template.  (Success therefore requires both markers.) -/
theorem C10_template_markers (cfg : TableBertConfig) (rng : Rng) (ctx : List String)
    (header : List Column)
    (hmiss : "column" ∉ cfg.cell_input_template ∨ "type" ∉ cfg.cell_input_template)
    (hok : (get_input cfg ctx ⟨"fake_table", header⟩).map
      (fun ii => ii.column_spans.isEmpty) = .ok false) :
    ∃ e, create_pretraining_instance cfg rng ctx header = .error e ∧
      (e = "KeyError: column_name" ∨ e = "KeyError: type") := by
  rcases hgi : get_input cfg ctx ⟨"fake_table", header⟩ with e | ii
  · rw [hgi] at hok
    exact absurd hok (by simp [Except.map])
  rw [hgi] at hok
  simp only [Except.map, Except.ok.injEq] at hok
  have hspans := get_input_column_spans hgi
  have hprop : ∀ q ∈ ii.column_spans, q.2.column_name = none ∨ q.2.type = none := by
    rcases hmiss with hm | hm
    · intro q hq
      rw [hspans] at hq
      exact Or.inl (buildRow_maps_prop cfg _ (fun sm => sm.column_name = none)
        (fun _ _ _ => get_cell_input_no_column hm) _ _ _ []
        (by intro q' hq'; exact absurd hq' (by simp)) q hq)
    · intro q hq
      rw [hspans] at hq
      exact Or.inr (buildRow_maps_prop cfg _ (fun sm => sm.type = none)
        (fun _ _ _ => get_cell_input_no_type hm) _ _ _ []
        (by intro q' hq'; exact absurd hq' (by simp)) q hq)
  rcases hcs : ii.column_spans with _ | ⟨q, qs⟩
  · rw [hcs] at hok
    exact absurd hok (by simp)
  have hhead : q.2.column_name = none ∨ q.2.type = none :=
    hprop q (by rw [hcs]; exact List.mem_cons_self _ _)
  obtain ⟨e, herr, hem⟩ := columnCandidates_head_error rng qs 0 hhead
  refine ⟨e, ?_, hem⟩
  unfold create_pretraining_instance
  rw [hgi]
  dsimp only
  rw [hcs, herr]

/-- C10, witness: a template containing only the `value` marker makes
the pretraining-instance construction fail with
`KeyError: column_name` on the scenario table. -/
theorem C10_witness :
    ("column" ∉ ({ cfgCT with cell_input_template := ["value"] }).cell_input_template ∨
      "type" ∉ ({ cfgCT with cell_input_template := ["value"] }).cell_input_template) ∧
    (get_input { cfgCT with cell_input_template := ["value"] } ctxHMM
        ⟨"fake_table", [colCountry]⟩).map (fun ii => ii.column_spans.isEmpty) = .ok false ∧
    ∃ e, create_pretraining_instance { cfgCT with cell_input_template := ["value"] } oracle
        ctxHMM [colCountry] = .error e ∧
      (e = "KeyError: column_name" ∨ e = "KeyError: type") :=
  ⟨by decide, by decide,
    C10_template_markers { cfgCT with cell_input_template := ["value"] } oracle ctxHMM
      [colCountry] (by decide) (by decide)⟩

/-- Membership of an index in a half-open span. -/
def SpanIn (p : Nat × Nat) (i : Nat) : Prop := p.1 ≤ i ∧ i < p.2

/-- Structural invariant of a span map being built for a cell that has
emitted `len` tokens starting at absolute offset `off`: every recorded
span lies inside the emitted region, and the `value` span is disjoint
from the `column_name` span, the `type` span and the `other_tokens`
positions (the maskable fields). -/
def CellInv (off len : Nat) (sm : SpanMap) : Prop :=
  (∀ p, sm.column_name = some p → off ≤ p.1 ∧ p.2 ≤ off + len) ∧
  (∀ p, sm.type = some p → off ≤ p.1 ∧ p.2 ≤ off + len) ∧
  (∀ p, sm.value = some p → off ≤ p.1 ∧ p.2 ≤ off + len) ∧
  (∀ t ∈ sm.other_tokens, off ≤ t ∧ t < off + len) ∧
  (∀ p, sm.value = some p → ∀ i, SpanIn p i →
    (∀ pc, sm.column_name = some pc → ¬ SpanIn pc i) ∧
    (∀ pt, sm.type = some pt → ¬ SpanIn pt i) ∧ i ∉ sm.other_tokens)

theorem cellStep_inv {col : Column} {v : List String} {off : Nat} :
    ∀ (template : List String) (input : List String) (sm : SpanMap),
      CellInv off input.length sm →
      CellInv off (cellStep col v off template input sm).1.length
        (cellStep col v off template input sm).2 := by
  intro template
  induction template with
  | nil => intro input sm h; exact h
  | cons token rest ih =>
    intro input sm h
    obtain ⟨hcn, hty, hva, hot, hdisj⟩ := h
    unfold cellStep
    split
    · refine ih _ _ ⟨?_, ?_, ?_, ?_, ?_⟩
      · intro p hp
        simp only [Option.some.injEq] at hp
        simp [List.length_append, ← hp]
        omega
      · intro p hp
        obtain ⟨h1, h2⟩ := hty p hp
        simp [List.length_append]
        omega
      · intro p hp
        obtain ⟨h1, h2⟩ := hva p hp
        simp [List.length_append]
        omega
      · intro t ht
        obtain ⟨h1, h2⟩ := hot t ht
        simp [List.length_append]
        omega
      · intro p hp i hi
        obtain ⟨_, hd2, hd3⟩ := hdisj p hp i hi
        refine ⟨?_, hd2, hd3⟩
        intro pc hpc
        simp only [Option.some.injEq] at hpc
        obtain ⟨_, hv2⟩ := hva p hp
        intro hsp
        rw [← hpc] at hsp
        obtain ⟨hs1, _⟩ := hsp
        obtain ⟨_, hi2⟩ := hi
        omega
    split
    · refine ih _ _ ⟨?_, ?_, ?_, ?_, ?_⟩
      · intro p hp
        obtain ⟨h1, h2⟩ := hcn p hp
        simp [List.length_append]
        omega
      · intro p hp
        obtain ⟨h1, h2⟩ := hty p hp
        simp [List.length_append]
        omega
      · intro p hp
        simp only [Option.some.injEq] at hp
        simp [List.length_append, ← hp]
        omega
      · intro t ht
        obtain ⟨h1, h2⟩ := hot t ht
        simp [List.length_append]
        omega
      · intro p hp i hi
        simp only [Option.some.injEq] at hp
        rw [← hp] at hi
        obtain ⟨hi1, hi2⟩ := hi
        refine ⟨?_, ?_, ?_⟩
        · intro pc hpc hsp
          obtain ⟨_, h2⟩ := hcn pc hpc
          obtain ⟨_, hs2⟩ := hsp
          omega
        · intro pt hpt hsp
          obtain ⟨_, h2⟩ := hty pt hpt
          obtain ⟨_, hs2⟩ := hsp
          omega
        · intro hmem
          obtain ⟨_, h2⟩ := hot i hmem
          omega
    split
    · refine ih _ _ ⟨?_, ?_, ?_, ?_, ?_⟩
      · intro p hp
        obtain ⟨h1, h2⟩ := hcn p hp
        simp [List.length_append]
        omega
      · intro p hp
        simp only [Option.some.injEq] at hp
        simp [List.length_append, ← hp]
        omega
      · intro p hp
        obtain ⟨h1, h2⟩ := hva p hp
        simp [List.length_append]
        omega
      · intro t ht
        obtain ⟨h1, h2⟩ := hot t ht
        simp [List.length_append]
        omega
      · intro p hp i hi
        obtain ⟨hd1, _, hd3⟩ := hdisj p hp i hi
        refine ⟨hd1, ?_, hd3⟩
        intro pt hpt
        simp only [Option.some.injEq] at hpt
        obtain ⟨_, hv2⟩ := hva p hp
        intro hsp
        rw [← hpt] at hsp
        obtain ⟨hs1, _⟩ := hsp
        obtain ⟨_, hi2⟩ := hi
        omega
    · refine ih _ _ ⟨?_, ?_, ?_, ?_, ?_⟩
      · intro p hp
        obtain ⟨h1, h2⟩ := hcn p hp
        simp [List.length_append]
        omega
      · intro p hp
        obtain ⟨h1, h2⟩ := hty p hp
        simp [List.length_append]
        omega
      · intro p hp
        obtain ⟨h1, h2⟩ := hva p hp
        simp [List.length_append]
        omega
      · intro t ht
        simp only [List.mem_append, List.mem_singleton] at ht
        rcases ht with ht | ht
        · obtain ⟨h1, h2⟩ := hot t ht
          simp [List.length_append]
          omega
        · simp [List.length_append, ht]
          omega
      · intro p hp i hi
        obtain ⟨hd1, hd2, hd3⟩ := hdisj p hp i hi
        refine ⟨hd1, hd2, ?_⟩
        intro hmem
        simp only [List.mem_append, List.mem_singleton] at hmem
        rcases hmem with hmem | hmem
        · exact hd3 hmem
        · obtain ⟨_, hv2⟩ := hva p hp
          obtain ⟨_, hi2⟩ := hi
          omega

theorem get_cell_input_inv (cfg : TableBertConfig) (col : Column) (v : List String)
    (off : Nat) :
    CellInv off (get_cell_input cfg col v off).1.length (get_cell_input cfg col v off).2 := by
  have h0 : CellInv off ([] : List String).length
      ({ first_token := (off, off + 1) } : SpanMap) := by
    refine ⟨?_, ?_, ?_, ?_, ?_⟩ <;> intro p hp <;> simp_all
  exact cellStep_inv cfg.cell_input_template [] { first_token := (off, off + 1) } h0

/-- An index is recorded in one of the data fields of a span map
(other than `first_token` and `whole_span`). -/
def InData (sm : SpanMap) (i : Nat) : Prop :=
  (∃ p, sm.column_name = some p ∧ SpanIn p i) ∨
  (∃ p, sm.type = some p ∧ SpanIn p i) ∨
  (∃ p, sm.value = some p ∧ SpanIn p i) ∨ i ∈ sm.other_tokens

theorem cellInv_inData {off len : Nat} {sm : SpanMap} {i : Nat}
    (h : CellInv off len sm) (hd : InData sm i) : off ≤ i ∧ i < off + len := by
  obtain ⟨hcn, hty, hva, hot, _⟩ := h
  rcases hd with ⟨p, hp, hs1, hs2⟩ | ⟨p, hp, hs1, hs2⟩ | ⟨p, hp, hs1, hs2⟩ | hmem
  · obtain ⟨h1, h2⟩ := hcn p hp
    omega
  · obtain ⟨h1, h2⟩ := hty p hp
    omega
  · obtain ⟨h1, h2⟩ := hva p hp
    omega
  · exact hot i hmem

/-- Invariant of the span-map dictionary built by the column loop:
every entry was produced by `get_cell_input` for a cell occupying an
interval inside `[tstart, endIdx)`, the recorded data of distinct
entries is mutually disjoint, and keys are distinct. -/
def RowInv (tstart endIdx : Nat) (maps : List (String × SpanMap)) : Prop :=
  (∀ q ∈ maps, ∃ off len, tstart ≤ off ∧ off + len < endIdx ∧ CellInv off len q.2) ∧
  maps.Pairwise (fun a b => ∀ i, InData a.2 i → ¬ InData b.2 i) ∧
  maps.Pairwise (fun a b => a.1 ≠ b.1)

theorem dictInsert_rowInv {tstart endIdx : Nat} {maps : List (String × SpanMap)}
    {k : String} {v : SpanMap} {off len : Nat}
    (hinv : RowInv tstart endIdx maps)
    (hoff : tstart ≤ off)
    (hv : CellInv off len v)
    (hvlow : endIdx ≤ off) :
    RowInv tstart (off + len + 1) (dictInsert maps k v) := by
  obtain ⟨hent, hdis, hkeys⟩ := hinv
  have hvdata : ∀ i, InData v i → endIdx ≤ i ∧ i < off + len + 1 := by
    intro i hi
    obtain ⟨h1, h2⟩ := cellInv_inData hv hi
    omega
  have holddata : ∀ q ∈ maps, ∀ i, InData q.2 i → i < endIdx := by
    intro q hq i hi
    obtain ⟨o, l, _, hl, hc⟩ := hent q hq
    obtain ⟨_, h2⟩ := cellInv_inData hc hi
    omega
  unfold dictInsert
  split
  · refine ⟨?_, ?_, ?_⟩
    · intro q hq
      rw [List.mem_map] at hq
      obtain ⟨p, hp, hpe⟩ := hq
      by_cases hk : p.1 == k
      · rw [if_pos hk] at hpe
        exact ⟨off, len, hoff, by omega, by rw [← hpe]; exact hv⟩
      · rw [if_neg hk] at hpe
        obtain ⟨o, l, ho, hl, hc⟩ := hent p hp
        exact ⟨o, l, ho, by omega, by rw [← hpe]; exact hc⟩
    · rw [List.pairwise_map]
      refine (hdis.and hkeys).imp_of_mem ?_
      intro a b ha hb hr
      obtain ⟨hrd, hrk⟩ := hr
      by_cases hak : a.1 == k <;> by_cases hbk : b.1 == k
      · exact absurd (by rw [eq_of_beq hak, eq_of_beq hbk]) hrk
      · rw [if_pos hak, if_neg hbk]
        intro i hi hib
        have h1 := (hvdata i hi).1
        have h2 := holddata b hb i hib
        omega
      · rw [if_neg hak, if_pos hbk]
        intro i hi hib
        have h1 := holddata a ha i hi
        have h2 := (hvdata i hib).1
        omega
      · rw [if_neg hak, if_neg hbk]
        exact hrd
    · rw [List.pairwise_map]
      refine hkeys.imp_of_mem ?_
      intro a b _ _ hr
      by_cases hak : a.1 == k <;> by_cases hbk : b.1 == k
      · exact absurd (by rw [eq_of_beq hak, eq_of_beq hbk]) hr
      · rw [if_pos hak, if_neg hbk]
        intro he
        exact hbk (beq_iff_eq.mpr he.symm)
      · rw [if_neg hak, if_pos hbk]
        intro he
        exact hak (beq_iff_eq.mpr he)
      · rw [if_neg hak, if_neg hbk]
        exact hr
  · rename_i hnone
    simp only [Bool.not_eq_true, List.any_eq_false] at hnone
    refine ⟨?_, ?_, ?_⟩
    · intro q hq
      rw [List.mem_append, List.mem_singleton] at hq
      rcases hq with hq | hq
      · obtain ⟨o, l, ho, hl, hc⟩ := hent q hq
        exact ⟨o, l, ho, by omega, hc⟩
      · exact ⟨off, len, hoff, by omega, by rw [hq]; exact hv⟩
    · rw [List.pairwise_append]
      refine ⟨hdis, by simp, ?_⟩
      intro a ha b hb
      rw [List.mem_singleton] at hb
      intro i hi hib
      rw [hb] at hib
      have h1 := (hvdata i hib).1
      have h2 := holddata a ha i hi
      omega
    · rw [List.pairwise_append]
      refine ⟨hkeys, by simp, ?_⟩
      intro a ha b hb
      rw [List.mem_singleton] at hb
      rw [hb]
      intro he
      exact absurd (beq_iff_eq.mpr he) (by simpa using hnone a ha)

theorem buildRow_inv (cfg : TableBertConfig) (mt : ℤ) (tstart : Nat) :
    ∀ (cols : List Column) (row : List String) (start : Nat)
      (maps : List (String × SpanMap)),
      start = tstart + row.length →
      RowInv tstart start maps →
      RowInv tstart (tstart + (buildRow cfg mt cols row start maps).1.length)
        (buildRow cfg mt cols row start maps).2 := by
  intro cols
  induction cols with
  | nil =>
    intro row start maps hstart hinv
    show RowInv tstart (tstart + row.length) maps
    rw [← hstart]
    exact hinv
  | cons col rest ih =>
    intro row start maps hstart hinv
    unfold buildRow
    dsimp only
    split
    · rw [show tstart + row.length = start from hstart.symm]
      exact hinv
    · refine ih _ _ _ ?_ ?_
      · simp [List.length_append]
        omega
      · have h := dictInsert_rowInv (k := col.name) hinv
          (by omega)
          (get_cell_input_inv cfg col (col.sample_value_tokens.take cfg.max_cell_len) start)
          (le_refl start)
        rw [show ((get_cell_input cfg col (col.sample_value_tokens.take cfg.max_cell_len)
            start).1 ++ [cfg.column_delimiter]).length =
            (get_cell_input cfg col (col.sample_value_tokens.take cfg.max_cell_len)
              start).1.length + 1 by simp, ← Nat.add_assoc]
        exact h

theorem rowOf_inv (cfg : TableBertConfig) (ctx : List String) (table : Table) :
    RowInv (tableTokensStartIdx cfg ctx)
      (tableTokensStartIdx cfg ctx + (rowOf cfg ctx table).1.length)
      (rowOf cfg ctx table).2 :=
  buildRow_inv cfg (maxTableTokenLength cfg ctx) (tableTokensStartIdx cfg ctx)
    table.header [] (tableTokensStartIdx cfg ctx) [] (by simp)
    ⟨fun q hq => absurd hq (by simp), by simp, by simp⟩

theorem columnCandidates_mem {rng : Rng} :
    ∀ {maps : List (String × SpanMap)} {c : Nat} {pools : List (List Nat)},
      columnCandidates rng maps c = .ok pools →
      ∀ pool ∈ pools, ∀ p ∈ pool, ∃ q ∈ maps,
        ((∃ pc, q.2.column_name = some pc ∧ SpanIn pc p) ∨
         (∃ pt, q.2.type = some pt ∧ SpanIn pt p) ∨ p ∈ q.2.other_tokens) := by
  intro maps
  induction maps with
  | nil =>
    intro c pools h pool hpool p _
    unfold columnCandidates at h
    injection h with h
    rw [← h] at hpool
    exact absurd hpool (by simp)
  | cons q rest ih =>
    intro c pools h pool hpool p hp
    obtain ⟨name, sm⟩ := q
    unfold columnCandidates at h
    rcases hcn : sm.column_name with _ | cn
    · rw [hcn] at h
      exact absurd h (by simp)
    rcases hty : sm.type with _ | ty
    · rw [hcn, hty] at h
      exact absurd h (by simp)
    rw [hcn, hty] at h
    dsimp only at h
    rcases hrest : columnCandidates rng rest (c + 1) with e | others
    · rw [hrest] at h
      exact absurd h (by simp)
    rw [hrest] at h
    injection h with h
    rw [← h] at hpool
    rw [List.mem_cons] at hpool
    rcases hpool with hpool | hpool
    · rw [hpool] at hp
      rw [List.mem_append] at hp
      rcases hp with hp | hp
      · rw [List.mem_append] at hp
        rcases hp with hp | hp
        · rw [List.mem_range'] at hp
          obtain ⟨k, hk, hke⟩ := hp
          exact ⟨(name, sm), List.mem_cons_self _ _,
            Or.inl ⟨cn, hcn, by constructor <;> omega⟩⟩
        · rw [List.mem_range'] at hp
          obtain ⟨k, hk, hke⟩ := hp
          exact ⟨(name, sm), List.mem_cons_self _ _,
            Or.inr (Or.inl ⟨ty, hty, by constructor <;> omega⟩)⟩
      · split at hp
        · exact ⟨(name, sm), List.mem_cons_self _ _, Or.inr (Or.inr hp)⟩
        · exact absurd hp (by simp)
    · obtain ⟨q', hq', hcase⟩ := ih hrest pool hpool p hp
      exact ⟨q', List.mem_cons_of_mem _ hq', hcase⟩

theorem create_mlm_positions_mem {cfg : TableBertConfig} {rng : Rng}
    {toks : List String} {ctx : List Nat} {cols : List (List Nat)} {r : MaskResult}
    (hs : SampleSpec rng) (hsh : ShuffleSpec rng)
    (hok : create_masked_lm_predictions cfg rng toks ctx cols = .ok r) :
    ∀ p ∈ r.masked_lm_positions, p ∈ ctx ∨ p ∈ cols.flatten := by
  obtain ⟨mci, n, o, hcc, _, _, _, _, hbranch, _⟩ := create_mlm_ok hok
  have hmcisub := (chooseColumnMasks_subperm hs hsh hcc).subset
  intro p hp
  rcases hbranch with ⟨_, cs, hcs, hposs⟩ | ⟨_, hposs⟩
  · rw [hposs, (pySorted_perm _).mem_iff, List.mem_append,
      (pySorted_perm _).mem_iff] at hp
    rcases hp with hp | hp
    · exact Or.inl (((hsh 2 ctx).subperm_left.mp (pySample_spec hs hcs).2).subset hp)
    · exact Or.inr (hmcisub hp)
  · rw [hposs] at hp
    exact Or.inr (hmcisub hp)

theorem context_candidates_bounds {cfg : TableBertConfig} {ctx : List String}
    {table : Table} {ii : PreInstance} (h : get_input cfg ctx table = .ok ii) :
    ∀ j ∈ context_candidates cfg ii,
      (cfg.context_first = true → j ≤ ctx.length) ∧
      (cfg.context_first = false → (rowOf cfg ctx table).1.length ≤ j) := by
  unfold get_input at h
  split at h
  · exact absurd h (by simp)
  split at h
  · rename_i hrow hcf
    injection h with h
    subst h
    intro j hj
    refine ⟨fun _ => ?_, fun hcf' => absurd hcf (by simp [hcf'])⟩
    have hj' : j ∈ List.range (1 + ctx.length) := by
      have hsub : (List.range (1 + ctx.length)).drop 1 ⊆ List.range (1 + ctx.length) :=
        (List.drop_sublist 1 _).subset
      apply hsub
      have : context_candidates cfg
          { tokens := ["[CLS]"] ++ ctx ++ ["[SEP]"] ++
              dropDelim cfg (rowOf cfg ctx table).1 ++ ["[SEP]"],
            segment_ids := List.replicate (ctx.length + 2) 0 ++
              List.replicate ((dropDelim cfg (rowOf cfg ctx table).1).length + 1) 1,
            column_spans := (rowOf cfg ctx table).2,
            context_length := 1 + ctx.length,
            context_token_indices := List.range (1 + ctx.length) } =
          (List.range (1 + ctx.length)).drop 1 := by
        show (if cfg.context_first then _ else _) = _
        rw [if_pos hcf]
      rw [this] at hj
      exact hj
    rw [List.mem_range] at hj'
    omega
  · rename_i hrow hcf
    injection h with h
    subst h
    intro j hj
    have hcf' : cfg.context_first = false := by
      cases hb : cfg.context_first
      · rfl
      · exact absurd hb hcf
    refine ⟨fun hh => absurd hh (by simp [hcf']), fun _ => ?_⟩
    have hpool : context_candidates cfg
        { tokens := ["[CLS]"] ++ dropDelim cfg (rowOf cfg ctx table).1 ++ ["[SEP]"] ++
            ctx ++ ["[SEP]"],
          segment_ids :=
            List.replicate ((dropDelim cfg (rowOf cfg ctx table).1).length + 2) 0 ++
            List.replicate (ctx.length + 1) 1,
          column_spans := (rowOf cfg ctx table).2,
          context_length := 1 + ctx.length,
          context_token_indices :=
            List.range' ((dropDelim cfg (rowOf cfg ctx table).1).length + 1)
              (ctx.length + 2) } =
        (List.range' ((dropDelim cfg (rowOf cfg ctx table).1).length + 1)
          (ctx.length + 2)).dropLast := by
      show (if cfg.context_first then _ else _) = _
      rw [hcf']
      rfl
    rw [hpool] at hj
    have hj' := (List.dropLast_sublist _).subset hj
    rw [List.mem_range'] at hj'
    obtain ⟨k, hk, hke⟩ := hj'
    have hdl : (rowOf cfg ctx table).1.length - 1 ≤
        (dropDelim cfg (rowOf cfg ctx table).1).length := by
      unfold dropDelim
      split
      · rw [List.length_dropLast]
      · omega
    omega

/-- C3, amended.  For every successfully built pretraining instance
(with a well-behaved sampler and shuffler), no index lying in any
column's `value` span is ever masked — regardless of the rare-literal
draw, since `other_tokens` positions are disjoint from the `value`
span.  (The `first_token` part of the original claim is dropped: the
counterexample shows the cell's first token is maskable whenever the
template's first marker is `column` or `type`.) -/
theorem C3_value_never_masked (cfg : TableBertConfig) (rng : Rng) (ctx : List String)
    (header : List Column) (ii : PreInstance) (inst : PretrainInstance)
    (hs : SampleSpec rng) (hsh : ShuffleSpec rng)
    (hii : get_input cfg ctx ⟨"fake_table", header⟩ = .ok ii)
    (hinst : create_pretraining_instance cfg rng ctx header = .ok inst) :
    ∀ q ∈ ii.column_spans, ∀ pv, q.2.value = some pv →
      ∀ i, SpanIn pv i → i ∉ inst.masked_lm_positions := by
  unfold create_pretraining_instance at hinst
  rw [hii] at hinst
  dsimp only at hinst
  rcases hcands : columnCandidates rng ii.column_spans 0 with e | pools
  · rw [hcands] at hinst
    exact absurd hinst (by simp)
  rw [hcands] at hinst
  dsimp only at hinst
  rcases hm : create_masked_lm_predictions cfg rng ii.tokens
      (context_candidates cfg ii) pools with e | r
  · rw [hm] at hinst
    exact absurd hinst (by simp)
  rw [hm] at hinst
  injection hinst with hinst
  subst hinst
  have hrowinv := rowOf_inv cfg ctx ⟨"fake_table", header⟩
  have hspans := get_input_column_spans hii
  intro q hq pv hpv i hi hmem
  have hmem' : i ∈ r.masked_lm_positions := hmem
  have hqrow : q ∈ (rowOf cfg ctx ⟨"fake_table", header⟩).2 := by
    rw [← hspans]
    exact hq
  have hbound : tableTokensStartIdx cfg ctx ≤ i ∧
      i + 1 < tableTokensStartIdx cfg ctx +
        (rowOf cfg ctx ⟨"fake_table", header⟩).1.length := by
    obtain ⟨off, len, hoff, hlt, hcell⟩ := hrowinv.1 q hqrow
    have hb := cellInv_inData hcell (Or.inr (Or.inr (Or.inl ⟨pv, hpv, hi⟩)))
    omega
  rcases create_mlm_positions_mem hs hsh hm i hmem' with hctxmem | hpoolmem
  · obtain ⟨hb1, hb2⟩ := context_candidates_bounds hii i hctxmem
    cases hcf : cfg.context_first
    · have := hb2 hcf
      have htst : tableTokensStartIdx cfg ctx = 1 := by
        unfold tableTokensStartIdx
        rw [hcf]
        rfl
      omega
    · have := hb1 hcf
      have htst : tableTokensStartIdx cfg ctx = ctx.length + 2 := by
        unfold tableTokensStartIdx
        rw [hcf]
        rfl
      omega
  · rw [List.mem_flatten] at hpoolmem
    obtain ⟨pool, hpool, hp⟩ := hpoolmem
    obtain ⟨q', hq', hcase⟩ := columnCandidates_mem hcands pool hpool i hp
    have hq'row : q' ∈ (rowOf cfg ctx ⟨"fake_table", header⟩).2 := by
      rw [← hspans]
      exact hq'
    by_cases hqq : q = q'
    · obtain ⟨off, len, _, _, hcell⟩ := hrowinv.1 q hqrow
      obtain ⟨_, _, _, _, hdisj⟩ := hcell
      obtain ⟨hd1, hd2, hd3⟩ := hdisj pv hpv i hi
      rw [← hqq] at hcase
      rcases hcase with ⟨pc, hpc, hspc⟩ | ⟨pt, hpt, hspt⟩ | hoth
      · exact hd1 pc hpc hspc
      · exact hd2 pt hpt hspt
      · exact hd3 hoth
    · have hsymm : Symmetric
          (fun (a b : String × SpanMap) => ∀ j, InData a.2 j → ¬ InData b.2 j) := by
        intro a b hab j hjb hja
        exact hab j hja hjb
      have hdisq := List.Pairwise.forall hsymm hrowinv.2.1 hqrow hq'row hqq
      have hvq : InData q.2 i := Or.inr (Or.inr (Or.inl ⟨pv, hpv, hi⟩))
      have hpq' : InData q'.2 i := by
        rcases hcase with ⟨pc, hpc, hspc⟩ | ⟨pt, hpt, hspt⟩ | hoth
        · exact Or.inl ⟨pc, hpc, hspc⟩
        · exact Or.inr (Or.inl ⟨pt, hpt, hspt⟩)
        · exact Or.inr (Or.inr (Or.inr hoth))
      exact hdisq i hvq hpq'

/-- C3, witness: in the concrete scenario run the `value` span is
`(7, 8)` (`brazil`) and no masked position falls in it. -/
theorem C3_witness :
    SampleSpec oracle ∧ ShuffleSpec oracle ∧
    ∃ ii inst, get_input cfgCT ctxHMM ⟨"fake_table", [colCountry]⟩ = .ok ii ∧
      create_pretraining_instance cfgCT oracle ctxHMM [colCountry] = .ok inst ∧
      ∀ q ∈ ii.column_spans, ∀ pv, q.2.value = some pv →
        ∀ i, SpanIn pv i → i ∉ inst.masked_lm_positions := by
  refine ⟨oracle_sample_spec, oracle_shuffle_spec,
    (get_input cfgCT ctxHMM ⟨"fake_table", [colCountry]⟩).toOption.getD ⟨[], [], [], 0, []⟩,
    (create_pretraining_instance cfgCT oracle ctxHMM [colCountry]).toOption.getD
      ⟨[], 0, [], [], ⟨0, none, 0, 0, none⟩⟩, by decide, by decide, ?_⟩
  exact C3_value_never_masked cfgCT oracle ctxHMM [colCountry] _ _
    oracle_sample_spec oracle_shuffle_spec (by decide) (by decide)

end TableBert
